import Mathlib

/-!
Verification of the Sparkbot real-time chat core
(`src/backend/app/api/routes/chat/websocket.py`).

The Python `ConnectionManager` keeps three dictionaries:
  `connections : room_id -> {user_id -> WebSocket}`
  `room_users  : room_id -> set of user_ids`
  `user_rooms  : user_id -> set of room_ids`
We embed Python dicts as insertion-ordered association lists (matching
CPython dict semantics: updating an existing key keeps its position,
inserting a fresh key appends at the end) and Python sets as lists of
distinct elements.  WebSocket handles are opaque and modelled by `Nat`.
-/

namespace Sparkbot

/-- First-match lookup in an association list; `lookupA l k` models `l.get(k)` /
`l[k]` on a Python dict with string keys. -/
def lookupA {α : Type} : List (String × α) → String → Option α
  | [], _ => none
  | (k, v) :: rest, k' => if k' = k then some v else lookupA rest k'

/-- `updA k v l` models `l[k] = v` on a Python dict: replaces the first entry
with key `k` in place, or appends a fresh entry at the end. -/
def updA {α : Type} (k : String) (v : α) : List (String × α) → List (String × α)
  | [] => [(k, v)]
  | (k', v') :: rest => if k' = k then (k, v) :: rest else (k', v') :: updA k v rest

/-- `delA k l` models `del l[k]` on a Python dict (total: no-op when absent). -/
def delA {α : Type} (k : String) : List (String × α) → List (String × α)
  | [] => []
  | (k', v') :: rest => if k' = k then delA k rest else (k', v') :: delA k rest

/-- `setAdd x s` models Python `s.add(x)` on a set. -/
def setAdd (x : String) (s : List String) : List String :=
  if x ∈ s then s else s ++ [x]

/-- `setDiscard x s` models Python `s.discard(x)`. -/
def setDiscard (x : String) : List String → List String
  | [] => []
  | y :: rest => if y = x then setDiscard x rest else y :: setDiscard x rest

/-- Keys of an association list are pairwise distinct (true of any Python dict). -/
def keysND {α : Type} (l : List (String × α)) : Prop :=
  (l.map Prod.fst).Nodup

/-! ### The Connection Registry (`ConnectionManager.__init__`) -/

/-- State of the `ConnectionManager` singleton: the three views
`connections`, `room_users` and `user_rooms` of `websocket.py` lines 109-117. -/
structure Registry where
  connections : List (String × List (String × Nat))
  room_users : List (String × List String)
  user_rooms : List (String × List String)
deriving DecidableEq

/-- The registry at process start: all three dicts empty. -/
def Registry.empty : Registry := ⟨[], [], []⟩

/-- `self.connections.get(room_id, {})` as a list of `(user_id, websocket)` pairs. -/
def connsOf (st : Registry) (room : String) : List (String × Nat) :=
  (lookupA st.connections room).getD []

/-- `self.room_users.get(room_id, set())`. -/
def roomUsersOf (st : Registry) (room : String) : List String :=
  (lookupA st.room_users room).getD []

/-- `self.user_rooms.get(user_id, set())`. -/
def userRoomsOf (st : Registry) (user : String) : List String :=
  (lookupA st.user_rooms user).getD []

/-- The connection registered for a `(room, user)` pair, if any. -/
def lookupOf (st : Registry) (room user : String) : Option Nat :=
  lookupA (connsOf st room) user

/-- `ConnectionManager.connect` (`websocket.py` lines 119-138):
creates the per-room dict and user set when the room key is fresh, stores the
websocket under `connections[room][user]`, adds the user to `room_users[room]`
and the room to `user_rooms[user]`.  `join_room` is an alias for this. -/
def Registry.connect (st : Registry) (room user : String) (ws : Nat) : Registry :=
  let hadRoom := (lookupA st.connections room).isSome
  let c0 := if hadRoom then st.connections else updA room [] st.connections
  let r0 := if hadRoom then st.room_users else updA room [] st.room_users
  let c1 := updA room (updA user ws ((lookupA c0 room).getD [])) c0
  let r1 := updA room (setAdd user ((lookupA r0 room).getD [])) r0
  let hadUser := (lookupA st.user_rooms user).isSome
  let u0 := if hadUser then st.user_rooms else updA user [] st.user_rooms
  let u1 := updA user (setAdd room ((lookupA u0 user).getD [])) u0
  ⟨c1, r1, u1⟩

/-- `ConnectionManager.disconnect` (`websocket.py` lines 140-156):
removes `connections[room][user]` and discards the user from
`room_users[room]` when the pair is present, deleting both room keys when the
room's dict becomes empty; then discards the room from `user_rooms[user]`,
deleting the user key when that set becomes empty.  `leave_room` is an alias. -/
def Registry.disconnect (st : Registry) (room user : String) : Registry :=
  let cr :=
    match lookupA st.connections room with
    | some m =>
      if (lookupA m user).isSome then
        let m' := delA user m
        let rs' := setDiscard user ((lookupA st.room_users room).getD [])
        if m' = [] then (delA room st.connections, delA room st.room_users)
        else (updA room m' st.connections, updA room rs' st.room_users)
      else (st.connections, st.room_users)
    | none => (st.connections, st.room_users)
  let ur :=
    match lookupA st.user_rooms user with
    | some s =>
      let s' := setDiscard room s
      if s' = [] then delA user st.user_rooms else updA user s' st.user_rooms
    | none => st.user_rooms
  ⟨cr.1, cr.2, ur⟩

/-- `ConnectionManager.get_online_users` (`websocket.py` lines 184-186):
`list(self.room_users.get(room_id, set()))`. -/
def Registry.get_online_users (st : Registry) (room : String) : List String :=
  roomUsersOf st room

/-! ### Well-formedness invariant of the registry -/

/-- Mutual consistency of the three registry views (spec section 3) together
with distinctness of dict keys and absence of empty containers. -/
structure WF (st : Registry) : Prop where
  inner_nd : ∀ r m, lookupA st.connections r = some m → keysND m
  view_cr : ∀ r u, u ∈ roomUsersOf st r ↔ (lookupOf st r u).isSome
  view_ur : ∀ u r, r ∈ userRoomsOf st u ↔ (lookupOf st r u).isSome
  ne_c : ∀ r m, lookupA st.connections r = some m → m ≠ []
  ne_r : ∀ r s, lookupA st.room_users r = some s → s ≠ []
  ne_u : ∀ u s, lookupA st.user_rooms u = some s → s ≠ []

/-! ### Sequences of register/unregister operations -/

/-- A register (`connect`) or unregister (`disconnect`) call on the registry. -/
inductive RegOp
  | reg (room user : String) (ws : Nat)
  | unreg (room user : String)
deriving DecidableEq

/-- Run a sequence of register/unregister operations from a given state. -/
def applyOps (st : Registry) : List RegOp → Registry
  | [] => st
  | RegOp.reg room user ws :: rest => applyOps (st.connect room user ws) rest
  | RegOp.unreg room user :: rest => applyOps (st.disconnect room user) rest

/-- The registry reached from process start after a sequence of operations. -/
def runOps (ops : List RegOp) : Registry :=
  applyOps Registry.empty ops

/-! ### The Broadcast Engine -/

/-- Outcome of attempting to send to one websocket during a broadcast sweep
(`websocket.py` lines 169-178): the handle passes the `client_state` check and
`send_json` succeeds (`ok`), the state check fails so the send is skipped
silently (`skipped`), or the attempt raises and the user is recorded in
`disconnected` (`failed`). -/
inductive SendOutcome
  | ok
  | skipped
  | failed
deriving DecidableEq

/-- `if exclude_user and user_id == exclude_user` — note the Python truthiness
test on `exclude_user` first. -/
def exclMatch (excl : Option String) (u : String) : Bool :=
  match excl with
  | none => false
  | some e => if e = "" then false else decide (u = e)

/-- One pass of the broadcast loop over a snapshot of the room's
`(user_id, websocket)` pairs: returns the pairs actually delivered to and the
`disconnected` list collected for post-sweep eviction, both in iteration
order. -/
def sweep (net : Nat → SendOutcome) (excl : Option String) :
    List (String × Nat) → List (String × Nat) × List String
  | [] => ([], [])
  | (u, w) :: rest =>
    let acc := sweep net excl rest
    if exclMatch excl u then acc
    else
      match net w with
      | SendOutcome.ok => ((u, w) :: acc.1, acc.2)
      | SendOutcome.skipped => acc
      | SendOutcome.failed => (acc.1, u :: acc.2)

/-- `ConnectionManager.broadcast` (`websocket.py` lines 158-182): returns
immediately when the room has no connection dict; otherwise sweeps over a
snapshot (`list(self.connections[room_id].items())`) of the room's entries,
collecting failed recipients, and only after the sweep completes calls
`disconnect` on each collected `(room, user)` pair.  Returns the delivered
pairs together with the post-eviction registry; exceptions from individual
sends are absorbed by the `except` branch, so the caller always receives a
normal return. -/
def Registry.broadcast (st : Registry) (room : String) (net : Nat → SendOutcome)
    (excl : Option String) : List (String × Nat) × Registry :=
  match lookupA st.connections room with
  | none => ([], st)
  | some m =>
    let sw := sweep net excl m
    (sw.1, sw.2.foldl (fun s u => s.disconnect room u) st)

/-! ### Protocol events, handlers and session teardown -/

/-- Python truthiness of a string (`if s:`). -/
def pyTruthy (s : String) : Bool := decide (s ≠ "")

/-- Truthiness of an optional string, as for `payload.get(key)`. -/
def optTruthy : Option String → Bool
  | none => false
  | some s => pyTruthy s

/-- Python `str.strip()`: drop whitespace from both ends. -/
def pyStrip (s : String) : String :=
  String.mk (((s.toList.dropWhile Char.isWhitespace).reverse.dropWhile
    Char.isWhitespace).reverse)

/-- Server-to-client events of the chat protocol (the typed outbound events of
spec section 3, restricted to the constructors the claims mention). -/
inductive OutEvt
  | messageEvt (id : Nat) (room sender content : String) (reply : Option String)
  | ackEvt (client_msg_id : Option String) (id : Nat)
  | presenceEvt (action : String) (user : String) (online : List String)
  | pongEvt
  | errorEvt (msg : String)
deriving DecidableEq

/-- Observable side effects of handling one inbound event, in program order:
a `send_json` on the handling session's own websocket, a `create_chat_message`
call on the message store, or a `ConnectionManager.broadcast` to a room. -/
inductive Action
  | sendToSender (e : OutEvt)
  | storeAppend (room sender content : String) (reply : Option String) (id : Nat)
  | broadcastRoom (room : String) (e : OutEvt)
deriving DecidableEq

/-- An inbound `message` event on the per-room endpoint:
`{"type": "message", "content": ..., "client_msg_id": ..., "reply_to_id": ...}`.
A missing `content` key reads as `""` (`data.get("content", "")`). -/
structure InMsg where
  content : String
  client_msg_id : Option String
  reply_to_id : Option String
deriving DecidableEq

/-- The `reply_to_id` normalisation of `websocket.py` lines 439-444: a truthy
value is parsed as a UUID (`isU` abstracts `uuid.UUID(s)` succeeding) and
replaced by `None` on `ValueError`; a falsy value (absent key, or the empty
string) skips the parse entirely and is forwarded unchanged. -/
def replyOf (isU : String → Bool) : Option String → Option String
  | none => none
  | some s => if pyTruthy s then (if isU s then some s else none) else some s

/-- `create_chat_message` raises instead of persisting exactly when the
handler forwards the empty string as `reply_to_id`: the `ChatMessage` column
`reply_to_id` is `Optional[uuid.UUID]` (`models.py` line 250) and binding the
string `""` to it fails inside `create_chat_message`'s `session.commit()`
(`crud.py`), before any durable write.  The empty string is the only
non-UUID value that survives the truthiness-guarded coercion of
`websocket.py` lines 440-444. -/
def storeBindFails (reply : Option String) : Bool :=
  decide (reply = some "")

/-- The `elif msg_type == "message"` branch of `websocket_chat`
(`websocket.py` lines 422-470), as the ordered list of its side effects.
`canSend` is the session's `can_send` flag and `nextId` the id the message
store will assign.  Rejections reply `error` and `continue` without touching
store, registry or room.  When the store append raises (`storeBindFails`,
i.e. an empty-string `reply_to_id` forwarded to the UUID column), the
exception reaches the loop's `except Exception` (`websocket.py` line 485),
which sends one `error` event carrying the exception text `str(e)[:200]` —
modelled by the parameter `dbErr` — and the session continues: nothing is
persisted, acked or broadcast.  Otherwise the accepted message is stored with
stripped content, acked to the sender, then broadcast to the room with no
exclusion. -/
def chatHandleMessage (isU : String → Bool) (canSend : Bool) (room user : String)
    (ev : InMsg) (nextId : Nat) (dbErr : String) : List Action :=
  if ¬canSend then
    [Action.sendToSender (OutEvt.errorEvt "VIEWERs cannot send messages")]
  else
    let content := pyStrip ev.content
    if content = "" then
      [Action.sendToSender (OutEvt.errorEvt "Message content cannot be empty")]
    else
      let reply := replyOf isU ev.reply_to_id
      if storeBindFails reply then
        [Action.sendToSender (OutEvt.errorEvt dbErr)]
      else
        [Action.storeAppend room user content reply nextId,
         Action.sendToSender (OutEvt.ackEvt ev.client_msg_id nextId),
         Action.broadcastRoom room (OutEvt.messageEvt nextId room user content reply)]

/-- The `elif msg_type == "message"` branch of `websocket_main`
(`websocket.py` lines 77-84) together with `ConnectionManager.send_message`
(lines 196-226): a falsy `room_id` or `content` is silently ignored (no error
reply); otherwise `UUID(room_id)` is parsed — an unparseable room id raises
out of the handler, modelled as `none` — and the message is persisted
unmodified and broadcast to the room, with no acknowledgement and no role
check anywhere on this endpoint. -/
def mainHandleMessage (isU : String → Bool) (user : String)
    (room? content? : Option String) (nextId : Nat) : Option (List Action) :=
  if optTruthy room? && optTruthy content? then
    let room := room?.getD ""
    let content := content?.getD ""
    if isU room then
      some [Action.storeAppend room user content none nextId,
            Action.broadcastRoom room (OutEvt.messageEvt nextId room user content none)]
    else none
  else some []

/-- Hexadecimal digit check for the canonical UUID text form. -/
def isHexDigit (c : Char) : Bool :=
  c.isDigit || ('a' ≤ c && c ≤ 'f') || ('A' ≤ c && c ≤ 'F')

/-- Canonical `8-4-4-4-12` UUID text form: the concrete instance of the
abstract uuid-parses predicate used to evaluate theorems on explicit
inputs. -/
def isUUIDcanonical (s : String) : Bool :=
  let cs := s.toList
  cs.length == 36 &&
    (List.range 36).all (fun i =>
      let c := cs.getD i ' '
      if i = 8 ∨ i = 13 ∨ i = 18 ∨ i = 23 then c == '-' else isHexDigit c)

/-- Roles a room member can hold (`models.py`, `RoomRole`). -/
inductive RoomRole
  | OWNER
  | MOD
  | MEMBER
  | VIEWER
  | BOT
deriving DecidableEq

/-- A chat user row, as far as the websocket code inspects it. -/
structure ChatUser where
  id : String
  is_active : Bool
deriving DecidableEq

/-- The user lookups the token validator performs (`get_chat_user_by_id`,
`get_chat_user_by_username`, `get_chat_user_by_slug` in `crud.py`), indexed by
the token subject string. -/
structure UserDB where
  byId : String → Option ChatUser
  byUsername : String → Option ChatUser
  bySlug : String → Option ChatUser

/-- One lookup stage of the token validator: `user = <lookup>(...)` followed
by `if user and user.is_active: return user`, else fall through. -/
def lookupActive : Option ChatUser → Option ChatUser → Option ChatUser
  | some u, fallback => if u.is_active then some u else fallback
  | none, fallback => fallback

/-- `get_current_chat_user_from_token` (`websocket.py` lines 251-288).
`payload?` is the `decode_token` result: `none` when decoding fails, otherwise
the optional `sub` claim; a falsy subject yields no user.  The by-id stage
runs only when the subject parses as a UUID (`isU`); each stage skips a user
found inactive, falling through to by-username and then by-slug. -/
def getCurrentChatUserFromToken (isU : String → Bool) (db : UserDB) :
    Option (Option String) → Option ChatUser
  | none => none
  | some none => none
  | some (some sub) =>
    if ¬pyTruthy sub then none
    else
      lookupActive (if isU sub then db.byId sub else none)
        (lookupActive (db.byUsername sub)
          (lookupActive (db.bySlug sub) none))

/-- Outcome of the connection phase of `websocket_chat`. -/
inductive AcceptOutcome
  | closed (code : Nat)
  | joined (user : ChatUser) (canSend : Bool)
deriving DecidableEq

/-- The pre-loop phase of `websocket_chat` (`websocket.py` lines 333-366):
a malformed room id closes with 4000, an unknown room with 4004, failed token
validation with 4001, missing membership with 4003; otherwise the session is
accepted and joins with `can_send = membership.role not in [RoomRole.VIEWER]`. -/
def chatAccept (isU : String → Bool) (db : UserDB) (roomExists : Bool)
    (memb : String → Option RoomRole) (roomId : String)
    (payload? : Option (Option String)) : AcceptOutcome :=
  if ¬isU roomId then AcceptOutcome.closed 4000
  else if ¬roomExists then AcceptOutcome.closed 4004
  else
    match getCurrentChatUserFromToken isU db payload? with
    | none => AcceptOutcome.closed 4001
    | some user =>
      match memb user.id with
      | none => AcceptOutcome.closed 4003
      | some role => AcceptOutcome.joined user (decide (role ≠ RoomRole.VIEWER))

/-- The `finally` block of `websocket_chat` (`websocket.py` lines 495-524):
disconnect the session's `(room, user)` pair, then broadcast one `presence`
event with action `"left"` to that room, carrying the online-user list read
after the removal. -/
def chatTeardown (st : Registry) (room user : String) : Registry × List Action :=
  let st1 := st.disconnect room user
  (st1,
    [Action.broadcastRoom room
      (OutEvt.presenceEvt "left" user (st1.get_online_users room))])

/-- The `finally` block of `websocket_main` (`websocket.py` lines 100-103):
`leave_room` (an alias for `disconnect`) for every room in
`user_rooms[user]` — and nothing else: no presence event is broadcast. -/
def mainTeardown (st : Registry) (user : String) : Registry × List Action :=
  let rooms := userRoomsOf st user
  (rooms.foldl (fun s r => s.disconnect r user) st, [])

/-- The ordered sequence of events the handling session's own client receives
from a list of actions: direct sends immediately, and each room broadcast once
(the sender is a registered member of the room it posts to, and the message
broadcast applies no exclusion). -/
def deliveredToSender : List Action → List OutEvt
  | [] => []
  | Action.sendToSender e :: rest => e :: deliveredToSender rest
  | Action.broadcastRoom _ e :: rest => e :: deliveredToSender rest
  | Action.storeAppend _ _ _ _ _ :: rest => deliveredToSender rest

@[simp] theorem lookupA_nil {α : Type} (k : String) :
    lookupA ([] : List (String × α)) k = none := rfl

@[simp] theorem lookupA_cons {α : Type} (k k' : String) (v : α) (rest : List (String × α)) :
    lookupA ((k, v) :: rest) k' = if k' = k then some v else lookupA rest k' := rfl

theorem lookupA_updA {α : Type} (k k' : String) (v : α) (l : List (String × α)) :
    lookupA (updA k v l) k' = if k' = k then some v else lookupA l k' := by
  induction l with
  | nil =>
    by_cases h : k' = k <;> simp [updA, lookupA, h]
  | cons p rest ih =>
    obtain ⟨a, b⟩ := p
    simp only [updA]
    by_cases hk : a = k
    · rw [if_pos hk]
      by_cases h' : k' = k
      · simp [h']
      · have h'' : ¬k' = a := fun h => h' (h.trans hk)
        simp [h', h'']
    · rw [if_neg hk]
      by_cases hk' : k' = a
      · have h2 : ¬k' = k := fun h => hk (hk'.symm.trans h)
        simp [hk', h2, hk]
      · simp [hk', ih]

theorem lookupA_delA {α : Type} (k k' : String) (l : List (String × α)) :
    lookupA (delA k l) k' = if k' = k then none else lookupA l k' := by
  induction l with
  | nil => by_cases h : k' = k <;> simp [delA, h]
  | cons p rest ih =>
    obtain ⟨a, b⟩ := p
    simp only [delA]
    by_cases ha : a = k
    · rw [if_pos ha, ih]
      by_cases hk' : k' = k
      · simp [hk']
      · have h'' : ¬k' = a := fun h => hk' (h.trans ha)
        simp [hk', h'']
    · rw [if_neg ha]
      by_cases hk' : k' = a
      · have h2 : ¬k' = k := fun h => ha (hk'.symm.trans h)
        simp [hk', h2, ha]
      · simp [hk', ih]

theorem lookupA_isSome_iff_mem {α : Type} (k : String) (l : List (String × α)) :
    (lookupA l k).isSome ↔ k ∈ l.map Prod.fst := by
  induction l with
  | nil => simp
  | cons p rest ih =>
    obtain ⟨a, b⟩ := p
    by_cases hk : k = a
    · simp [hk]
    · simp [hk, ih]

theorem mem_keys_updA {α : Type} (a k : String) (v : α) (l : List (String × α)) :
    a ∈ (updA k v l).map Prod.fst ↔ a = k ∨ a ∈ l.map Prod.fst := by
  induction l with
  | nil => simp [updA]
  | cons p rest ih =>
    obtain ⟨x, y⟩ := p
    simp only [updA]
    by_cases hk : x = k
    · rw [if_pos hk]
      subst hk
      simp only [List.map_cons, List.mem_cons]
      tauto
    · rw [if_neg hk]
      simp only [List.map_cons, List.mem_cons, ih]
      tauto

theorem keysND_updA {α : Type} (k : String) (v : α) (l : List (String × α))
    (h : keysND l) : keysND (updA k v l) := by
  induction l with
  | nil => simp [keysND, updA]
  | cons p rest ih =>
    obtain ⟨x, y⟩ := p
    simp only [keysND, List.map_cons, List.nodup_cons] at h
    show keysND (updA k v ((x, y) :: rest))
    simp only [updA]
    by_cases hk : x = k
    · rw [if_pos hk]
      subst hk
      simp only [keysND, List.map_cons, List.nodup_cons]
      exact h
    · rw [if_neg hk]
      simp only [keysND, List.map_cons, List.nodup_cons]
      refine ⟨?_, ih h.2⟩
      rw [mem_keys_updA]
      rintro (rfl | hx)
      · exact hk rfl
      · exact h.1 hx

theorem delA_sublist {α : Type} (k : String) (l : List (String × α)) :
    List.Sublist (delA k l) l := by
  induction l with
  | nil => simp [delA]
  | cons p rest ih =>
    obtain ⟨a, b⟩ := p
    by_cases ha : a = k
    · simp only [delA, if_pos ha]
      exact ih.cons _
    · simp only [delA, if_neg ha]
      exact ih.cons₂ _

theorem keysND_delA {α : Type} (k : String) (l : List (String × α))
    (h : keysND l) : keysND (delA k l) :=
  List.Nodup.sublist ((delA_sublist k l).map Prod.fst) h

theorem lookupA_of_mem {α : Type} {k : String} {v : α} {l : List (String × α)}
    (hnd : keysND l) (hmem : (k, v) ∈ l) : lookupA l k = some v := by
  induction l with
  | nil => simp at hmem
  | cons p rest ih =>
    obtain ⟨a, b⟩ := p
    simp only [keysND, List.map_cons, List.nodup_cons] at hnd
    rcases List.mem_cons.mp hmem with h | h
    · have h1 : k = a := congrArg Prod.fst h
      have h2 : v = b := congrArg Prod.snd h
      subst h1; subst h2
      simp
    · have hka : k ≠ a := by
        rintro rfl
        exact hnd.1 (List.mem_map.mpr ⟨(k, v), h, rfl⟩)
      simp [hka, ih hnd.2 h]

theorem countP_key_eq_one {α : Type} {k : String} {v : α} {l : List (String × α)}
    (hnd : keysND l) (hs : lookupA l k = some v) :
    l.countP (fun p => decide (p.1 = k)) = 1 := by
  induction l with
  | nil => simp at hs
  | cons p rest ih =>
    obtain ⟨a, b⟩ := p
    simp only [keysND, List.map_cons, List.nodup_cons] at hnd
    by_cases hk : k = a
    · subst hk
      have hz : rest.countP (fun p => decide (p.1 = k)) = 0 := by
        rw [List.countP_eq_zero]
        intro q hq
        simp only [decide_eq_true_eq]
        intro hqk
        exact hnd.1 (List.mem_map.mpr ⟨q, hq, hqk⟩)
      simp [List.countP_cons, hz]
    · simp only [lookupA_cons, if_neg hk] at hs
      have hcount := ih hnd.2 hs
      have hne : (decide ((a, b).1 = k)) = false := by
        simp only [decide_eq_false_iff_not]
        exact fun h => hk h.symm
      simp [List.countP_cons, hne, hcount]

@[simp] theorem mem_setAdd (x y : String) (s : List String) :
    x ∈ setAdd y s ↔ x = y ∨ x ∈ s := by
  unfold setAdd
  by_cases h : y ∈ s
  · rw [if_pos h]
    constructor
    · exact fun hx => Or.inr hx
    · rintro (rfl | hx)
      · exact h
      · exact hx
  · rw [if_neg h]
    simp [List.mem_append, or_comm]

@[simp] theorem mem_setDiscard (x y : String) (s : List String) :
    x ∈ setDiscard y s ↔ x ≠ y ∧ x ∈ s := by
  induction s with
  | nil => simp [setDiscard]
  | cons z rest ih =>
    simp only [setDiscard]
    by_cases hz : z = y
    · rw [if_pos hz, ih]
      constructor
      · exact fun h => ⟨h.1, List.mem_cons.mpr (Or.inr h.2)⟩
      · rintro ⟨hxy, hmem⟩
        rcases List.mem_cons.mp hmem with rfl | hmem'
        · exact absurd hz hxy
        · exact ⟨hxy, hmem'⟩
    · rw [if_neg hz]
      constructor
      · intro h
        rcases List.mem_cons.mp h with rfl | h'
        · exact ⟨fun hh => hz hh, List.mem_cons.mpr (Or.inl rfl)⟩
        · have h2 := ih.mp h'
          exact ⟨h2.1, List.mem_cons.mpr (Or.inr h2.2)⟩
      · rintro ⟨hxy, hmem⟩
        rcases List.mem_cons.mp hmem with rfl | hmem'
        · exact List.mem_cons.mpr (Or.inl rfl)
        · exact List.mem_cons.mpr (Or.inr (ih.mpr ⟨hxy, hmem'⟩))

theorem setAdd_ne_nil (x : String) (s : List String) : setAdd x s ≠ [] := by
  unfold setAdd
  by_cases h : x ∈ s
  · rw [if_pos h]
    rintro rfl
    exact List.not_mem_nil x h
  · rw [if_neg h]
    simp

theorem setDiscard_eq_self_of_not_mem {x : String} {s : List String} (h : x ∉ s) :
    setDiscard x s = s := by
  induction s with
  | nil => simp [setDiscard]
  | cons z rest ih =>
    simp only [List.mem_cons, not_or] at h
    have hz : z ≠ x := fun hh => h.1 (hh ▸ rfl)
    simp [setDiscard, hz, ih h.2]

/-! ### Pointwise characterisation of `connect` -/

theorem connsOf_connect (st : Registry) (room user : String) (ws : Nat) (r' : String) :
    connsOf (st.connect room user ws) r' =
      if r' = room then updA user ws (connsOf st room) else connsOf st r' := by
  unfold Registry.connect connsOf
  by_cases hr : r' = room
  · subst hr
    by_cases had : (lookupA st.connections r').isSome
    · simp only [had, if_pos rfl, if_true, lookupA_updA, Option.getD_some]
    · simp only [had, if_false, Bool.false_eq_true, lookupA_updA, if_pos rfl]
      rcases h : lookupA st.connections r' with _ | m
      · simp
      · rw [h] at had
        simp at had
  · by_cases had : (lookupA st.connections room).isSome
    · simp only [had, if_true, lookupA_updA, if_neg hr]
    · simp only [had, Bool.false_eq_true, if_false, lookupA_updA, if_neg hr]

theorem lookupOf_connect (st : Registry) (room user : String) (ws : Nat) (r' u' : String) :
    lookupOf (st.connect room user ws) r' u' =
      if r' = room ∧ u' = user then some ws
      else if r' = room then lookupOf st room u' else lookupOf st r' u' := by
  unfold lookupOf
  rw [connsOf_connect]
  by_cases hr : r' = room
  · subst hr
    rw [if_pos rfl, lookupA_updA]
    by_cases hu : u' = user
    · simp [hu]
    · simp [hu]
  · simp [hr]

theorem roomUsersOf_connect (st : Registry) (room user : String) (ws : Nat) (r' : String) :
    roomUsersOf (st.connect room user ws) r' =
      if r' = room then
        setAdd user (if (lookupA st.connections room).isSome then roomUsersOf st room else [])
      else roomUsersOf st r' := by
  unfold Registry.connect roomUsersOf
  by_cases hr : r' = room
  · subst hr
    by_cases had : (lookupA st.connections r').isSome
    · simp only [had, if_true, lookupA_updA, if_pos rfl, Option.getD_some]
    · simp only [had, Bool.false_eq_true, if_false, lookupA_updA, if_pos rfl]
      simp
  · by_cases had : (lookupA st.connections room).isSome
    · simp only [had, if_true, lookupA_updA, if_neg hr]
    · simp only [had, Bool.false_eq_true, if_false, lookupA_updA, if_neg hr]

theorem userRoomsOf_connect (st : Registry) (room user : String) (ws : Nat) (u' : String) :
    userRoomsOf (st.connect room user ws) u' =
      if u' = user then setAdd room (userRoomsOf st user) else userRoomsOf st u' := by
  unfold Registry.connect userRoomsOf
  by_cases hu : u' = user
  · subst hu
    by_cases had : (lookupA st.user_rooms u').isSome
    · simp only [had, if_true, lookupA_updA, if_pos rfl, Option.getD_some]
    · simp only [had, Bool.false_eq_true, if_false, lookupA_updA, if_pos rfl]
      rcases h : lookupA st.user_rooms u' with _ | s
      · simp
      · rw [h] at had
        simp at had
  · by_cases had : (lookupA st.user_rooms user).isSome
    · simp only [had, if_true, lookupA_updA, if_neg hu]
    · simp only [had, Bool.false_eq_true, if_false, lookupA_updA, if_neg hu]

theorem lookupA_connections_connect (st : Registry) (room user : String) (ws : Nat)
    (r' : String) :
    lookupA (st.connect room user ws).connections r' =
      if r' = room then some (updA user ws (connsOf st room))
      else lookupA st.connections r' := by
  unfold Registry.connect connsOf
  by_cases had : (lookupA st.connections room).isSome
  · simp only [had, if_true, lookupA_updA]
  · simp only [had, Bool.false_eq_true, if_false, lookupA_updA]
    by_cases hr : r' = room
    · subst hr
      rcases h : lookupA st.connections r' with _ | m
      · simp [lookupA_updA]
      · rw [h] at had
        simp at had
    · simp [hr, lookupA_updA]

theorem lookupA_room_users_connect (st : Registry) (room user : String) (ws : Nat)
    (r' : String) :
    lookupA (st.connect room user ws).room_users r' =
      if r' = room then
        some (setAdd user
          (if (lookupA st.connections room).isSome then roomUsersOf st room else []))
      else lookupA st.room_users r' := by
  unfold Registry.connect roomUsersOf
  by_cases had : (lookupA st.connections room).isSome
  · simp only [had, if_true, lookupA_updA]
  · simp only [had, Bool.false_eq_true, if_false, lookupA_updA]
    by_cases hr : r' = room
    · subst hr
      simp [lookupA_updA]
    · simp [hr, lookupA_updA]

theorem lookupA_user_rooms_connect (st : Registry) (room user : String) (ws : Nat)
    (u' : String) :
    lookupA (st.connect room user ws).user_rooms u' =
      if u' = user then some (setAdd room (userRoomsOf st user))
      else lookupA st.user_rooms u' := by
  unfold Registry.connect userRoomsOf
  by_cases had : (lookupA st.user_rooms user).isSome
  · simp only [had, if_true, lookupA_updA]
  · simp only [had, Bool.false_eq_true, if_false, lookupA_updA]
    by_cases hu : u' = user
    · subst hu
      rcases h : lookupA st.user_rooms u' with _ | s
      · simp [lookupA_updA]
      · rw [h] at had
        simp at had
    · simp [hu, lookupA_updA]

theorem delA_eq_nil_lookupA {α : Type} {k : String} {l : List (String × α)}
    (h : delA k l = []) {k' : String} (hk : k' ≠ k) : lookupA l k' = none := by
  induction l with
  | nil => simp
  | cons p rest ih =>
    obtain ⟨a, b⟩ := p
    simp only [delA] at h
    by_cases ha : a = k
    · rw [if_pos ha] at h
      have hka : ¬k' = a := fun hh => hk (hh.trans ha)
      simp [hka, ih h]
    · rw [if_neg ha] at h
      simp at h

/-! ### Pointwise characterisation of `disconnect` -/

theorem lookupA_connections_disconnect (st : Registry) (room user : String) (r' : String) :
    lookupA (st.disconnect room user).connections r' =
      if r' = room ∧ (lookupOf st room user).isSome then
        (if delA user (connsOf st room) = [] then none
         else some (delA user (connsOf st room)))
      else lookupA st.connections r' := by
  unfold Registry.disconnect lookupOf connsOf
  rcases hm : lookupA st.connections room with _ | m
  · simp only [hm]
    simp
  · simp only [hm, Option.getD_some]
    rcases hp : lookupA m user with _ | w
    · simp only [hp, Option.isSome_none, Bool.false_eq_true, if_false]
      simp
    · simp only [hp, Option.isSome_some, if_true, and_true]
      by_cases hnil : delA user m = []
      · rw [if_pos hnil, if_pos hnil]
        simp only [lookupA_delA]
      · rw [if_neg hnil, if_neg hnil]
        simp only [lookupA_updA]

theorem lookupA_room_users_disconnect (st : Registry) (room user : String) (r' : String) :
    lookupA (st.disconnect room user).room_users r' =
      if r' = room ∧ (lookupOf st room user).isSome then
        (if delA user (connsOf st room) = [] then none
         else some (setDiscard user (roomUsersOf st room)))
      else lookupA st.room_users r' := by
  unfold Registry.disconnect lookupOf connsOf roomUsersOf
  rcases hm : lookupA st.connections room with _ | m
  · simp only [hm]
    simp
  · simp only [hm, Option.getD_some]
    rcases hp : lookupA m user with _ | w
    · simp only [hp, Option.isSome_none, Bool.false_eq_true, if_false]
      simp
    · simp only [hp, Option.isSome_some, if_true, and_true]
      by_cases hnil : delA user m = []
      · rw [if_pos hnil, if_pos hnil]
        simp only [lookupA_delA]
      · rw [if_neg hnil, if_neg hnil]
        simp only [lookupA_updA]

theorem lookupA_user_rooms_disconnect (st : Registry) (room user : String) (u' : String) :
    lookupA (st.disconnect room user).user_rooms u' =
      if u' = user ∧ (lookupA st.user_rooms user).isSome then
        (if setDiscard room (userRoomsOf st user) = [] then none
         else some (setDiscard room (userRoomsOf st user)))
      else lookupA st.user_rooms u' := by
  unfold Registry.disconnect userRoomsOf
  rcases hs : lookupA st.user_rooms user with _ | s
  · simp only [hs]
    simp
  · simp only [hs, Option.getD_some, Option.isSome_some, if_true, and_true]
    by_cases hnil : setDiscard room s = []
    · rw [if_pos hnil, if_pos hnil]
      simp only [lookupA_delA]
    · rw [if_neg hnil, if_neg hnil]
      simp only [lookupA_updA]

theorem updA_ne_nil {α : Type} (k : String) (v : α) (l : List (String × α)) :
    updA k v l ≠ [] := by
  cases l with
  | nil => simp [updA]
  | cons p rest =>
    obtain ⟨a, b⟩ := p
    simp only [updA]
    by_cases ha : a = k
    · simp [ha]
    · simp [ha]

theorem mem_delA {α : Type} {p : String × α} {k : String} {l : List (String × α)}
    (h : p ∈ delA k l) : p ∈ l ∧ p.1 ≠ k := by
  induction l with
  | nil => simp [delA] at h
  | cons q rest ih =>
    obtain ⟨a, b⟩ := q
    simp only [delA] at h
    by_cases ha : a = k
    · rw [if_pos ha] at h
      exact ⟨List.mem_cons.mpr (Or.inr (ih h).1), (ih h).2⟩
    · rw [if_neg ha] at h
      rcases List.mem_cons.mp h with rfl | h'
      · exact ⟨List.mem_cons.mpr (Or.inl rfl), ha⟩
      · exact ⟨List.mem_cons.mpr (Or.inr (ih h').1), (ih h').2⟩

theorem lookupOf_disconnect (st : Registry) (room user : String) (r' u' : String) :
    lookupOf (st.disconnect room user) r' u' =
      if r' = room ∧ u' = user then none else lookupOf st r' u' := by
  unfold lookupOf connsOf
  rw [lookupA_connections_disconnect]
  by_cases hr : r' = room
  · subst hr
    by_cases hp : (lookupOf st r' user).isSome
    · rw [if_pos ⟨rfl, hp⟩]
      by_cases hnil : delA user (connsOf st r') = []
      · rw [if_pos hnil]
        by_cases hu : u' = user
        · simp [hu]
        · have hnone := delA_eq_nil_lookupA hnil hu
          unfold connsOf at hnone
          simp [hu, hnone]
      · rw [if_neg hnil]
        simp only [Option.getD_some, lookupA_delA]
        by_cases hu : u' = user
        · simp [hu]
        · simp [hu, connsOf]
    · have hpn : lookupA ((lookupA st.connections r').getD []) user = none := by
        have h2 := Option.not_isSome_iff_eq_none.mp hp
        unfold lookupOf connsOf at h2
        exact h2
      have hcond1 : ¬(r' = r' ∧ (lookupOf st r' user).isSome) := fun h => hp h.2
      rw [if_neg hcond1]
      by_cases hu : u' = user
      · simp [hu, hpn]
      · simp [hu]
  · have hc1 : ¬(r' = room ∧ (lookupOf st room user).isSome) := fun h => hr h.1
    have hc2 : ¬(r' = room ∧ u' = user) := fun h => hr h.1
    rw [if_neg hc1, if_neg hc2]

theorem userRoomsOf_disconnect (st : Registry) (room user : String) (u' : String) :
    userRoomsOf (st.disconnect room user) u' =
      if u' = user then setDiscard room (userRoomsOf st user) else userRoomsOf st u' := by
  show (lookupA (st.disconnect room user).user_rooms u').getD [] = _
  rw [lookupA_user_rooms_disconnect]
  by_cases hu : u' = user
  · subst hu
    rw [if_pos rfl]
    by_cases hs : (lookupA st.user_rooms u').isSome
    · rw [if_pos ⟨rfl, hs⟩]
      by_cases hnil : setDiscard room (userRoomsOf st u') = []
      · rw [if_pos hnil, hnil]
        simp
      · rw [if_neg hnil]
        simp
    · have hcond : ¬(u' = u' ∧ (lookupA st.user_rooms u').isSome) := fun h => hs h.2
      rw [if_neg hcond]
      have hsn : lookupA st.user_rooms u' = none := Option.not_isSome_iff_eq_none.mp hs
      rw [hsn]
      have hur : userRoomsOf st u' = [] := by
        unfold userRoomsOf
        rw [hsn]
        rfl
      rw [hur]
      simp [setDiscard]
  · rw [if_neg (fun h : u' = user ∧ _ => hu h.1), if_neg hu]
    rfl

theorem roomUsersOf_disconnect (st : Registry) (room user : String) (r' : String)
    (hview : ∀ u', u' ∈ roomUsersOf st room ↔ (lookupOf st room u').isSome) :
    roomUsersOf (st.disconnect room user) r' =
      if r' = room then setDiscard user (roomUsersOf st room) else roomUsersOf st r' := by
  show (lookupA (st.disconnect room user).room_users r').getD [] = _
  rw [lookupA_room_users_disconnect]
  by_cases hr : r' = room
  · subst hr
    rw [if_pos rfl]
    by_cases hp : (lookupOf st r' user).isSome
    · rw [if_pos ⟨rfl, hp⟩]
      by_cases hnil : delA user (connsOf st r') = []
      · rw [if_pos hnil]
        have hempty : setDiscard user (roomUsersOf st r') = [] := by
          rw [List.eq_nil_iff_forall_not_mem]
          intro x hx
          rw [mem_setDiscard] at hx
          have hsome := (hview x).mp hx.2
          unfold lookupOf at hsome
          rw [delA_eq_nil_lookupA hnil hx.1] at hsome
          simp at hsome
        rw [hempty]
        simp
      · rw [if_neg hnil]
        simp [roomUsersOf]
    · have hcond : ¬(r' = r' ∧ (lookupOf st r' user).isSome) := fun h => hp h.2
      rw [if_neg hcond]
      have hnm : user ∉ roomUsersOf st r' := fun hmem => hp ((hview user).mp hmem)
      rw [setDiscard_eq_self_of_not_mem hnm]
      rfl
  · rw [if_neg (fun h : r' = room ∧ _ => hr h.1), if_neg hr]
    rfl

theorem WF_empty : WF Registry.empty := by
  refine ⟨?_, ?_, ?_, ?_, ?_, ?_⟩ <;> intro a b <;>
    simp [Registry.empty, roomUsersOf, userRoomsOf, lookupOf, connsOf]

theorem WF.connsOf_nd {st : Registry} (h : WF st) (r : String) : keysND (connsOf st r) := by
  unfold connsOf
  rcases hm : lookupA st.connections r with _ | m
  · simp [keysND]
  · simp only [Option.getD_some]
    exact h.inner_nd r m hm

theorem WF.roomUsersOf_eq_nil {st : Registry} (h : WF st) {r : String}
    (hc : lookupA st.connections r = none) : roomUsersOf st r = [] := by
  rw [List.eq_nil_iff_forall_not_mem]
  intro u hu
  have hs := (h.view_cr r u).mp hu
  unfold lookupOf connsOf at hs
  rw [hc] at hs
  simp at hs

theorem WF_connect {st : Registry} (h : WF st) (room user : String) (ws : Nat) :
    WF (st.connect room user ws) := by
  have hr1 : ∀ r', roomUsersOf (st.connect room user ws) r' =
      if r' = room then setAdd user (roomUsersOf st room) else roomUsersOf st r' := by
    intro r'
    rw [roomUsersOf_connect]
    by_cases hr : r' = room
    · rw [if_pos hr, if_pos hr]
      by_cases had : (lookupA st.connections room).isSome
      · rw [if_pos had]
      · rw [if_neg had, h.roomUsersOf_eq_nil (Option.not_isSome_iff_eq_none.mp had)]
    · rw [if_neg hr, if_neg hr]
  constructor
  · intro r' m hm
    rw [lookupA_connections_connect] at hm
    by_cases hr : r' = room
    · rw [if_pos hr, Option.some_inj] at hm
      subst hm
      exact keysND_updA _ _ _ (h.connsOf_nd room)
    · rw [if_neg hr] at hm
      exact h.inner_nd r' m hm
  · intro r' u'
    rw [hr1, lookupOf_connect]
    by_cases hr : r' = room
    · by_cases hu : u' = user
      · simp [hr, hu]
      · simp [hr, hu, h.view_cr]
    · simp [hr, h.view_cr]
  · intro u' r
    rw [userRoomsOf_connect, lookupOf_connect]
    by_cases hu : u' = user
    · by_cases hr : r = room
      · simp [hu, hr]
      · simp [hu, hr, h.view_ur]
    · by_cases hr : r = room
      · simp [hu, hr, h.view_ur]
      · simp [hu, hr, h.view_ur]
  · intro r' m hm
    rw [lookupA_connections_connect] at hm
    by_cases hr : r' = room
    · rw [if_pos hr, Option.some_inj] at hm
      subst hm
      exact updA_ne_nil _ _ _
    · rw [if_neg hr] at hm
      exact h.ne_c r' m hm
  · intro r' s hs
    rw [lookupA_room_users_connect] at hs
    by_cases hr : r' = room
    · rw [if_pos hr, Option.some_inj] at hs
      subst hs
      exact setAdd_ne_nil _ _
    · rw [if_neg hr] at hs
      exact h.ne_r r' s hs
  · intro u' s hs
    rw [lookupA_user_rooms_connect] at hs
    by_cases hu : u' = user
    · rw [if_pos hu, Option.some_inj] at hs
      subst hs
      exact setAdd_ne_nil _ _
    · rw [if_neg hu] at hs
      exact h.ne_u u' s hs

theorem WF_disconnect {st : Registry} (h : WF st) (room user : String) :
    WF (st.disconnect room user) := by
  have hview := fun u' => h.view_cr room u'
  constructor
  · intro r' m hm
    rw [lookupA_connections_disconnect] at hm
    by_cases hc : r' = room ∧ (lookupOf st room user).isSome
    · rw [if_pos hc] at hm
      by_cases hnil : delA user (connsOf st room) = []
      · rw [if_pos hnil] at hm
        simp at hm
      · rw [if_neg hnil, Option.some_inj] at hm
        subst hm
        exact keysND_delA _ _ (h.connsOf_nd room)
    · rw [if_neg hc] at hm
      exact h.inner_nd r' m hm
  · intro r' u'
    rw [roomUsersOf_disconnect st room user r' hview, lookupOf_disconnect]
    by_cases hr : r' = room
    · by_cases hu : u' = user
      · simp [hr, hu]
      · simp [hr, hu, h.view_cr]
    · simp [hr, h.view_cr]
  · intro u' r
    rw [userRoomsOf_disconnect, lookupOf_disconnect]
    by_cases hu : u' = user
    · by_cases hr : r = room
      · simp [hu, hr]
      · simp [hu, hr, h.view_ur]
    · simp [hu, h.view_ur]
  · intro r' m hm
    rw [lookupA_connections_disconnect] at hm
    by_cases hc : r' = room ∧ (lookupOf st room user).isSome
    · rw [if_pos hc] at hm
      by_cases hnil : delA user (connsOf st room) = []
      · rw [if_pos hnil] at hm
        simp at hm
      · rw [if_neg hnil, Option.some_inj] at hm
        subst hm
        exact hnil
    · rw [if_neg hc] at hm
      exact h.ne_c r' m hm
  · intro r' s hs
    rw [lookupA_room_users_disconnect] at hs
    by_cases hc : r' = room ∧ (lookupOf st room user).isSome
    · rw [if_pos hc] at hs
      by_cases hnil : delA user (connsOf st room) = []
      · rw [if_pos hnil] at hs
        simp at hs
      · rw [if_neg hnil, Option.some_inj] at hs
        subst hs
        obtain ⟨p, hp⟩ := List.exists_mem_of_ne_nil _ hnil
        have hpd := mem_delA hp
        have hkey : (lookupA (connsOf st room) p.1).isSome := by
          rw [lookupA_isSome_iff_mem]
          exact List.mem_map.mpr ⟨p, hpd.1, rfl⟩
        have hmem : p.1 ∈ roomUsersOf st room := (h.view_cr room p.1).mpr hkey
        intro hnil2
        rw [List.eq_nil_iff_forall_not_mem] at hnil2
        exact hnil2 p.1 ((mem_setDiscard _ _ _).mpr ⟨hpd.2, hmem⟩)
    · rw [if_neg hc] at hs
      exact h.ne_r r' s hs
  · intro u' s hs
    rw [lookupA_user_rooms_disconnect] at hs
    by_cases hc : u' = user ∧ (lookupA st.user_rooms user).isSome
    · rw [if_pos hc] at hs
      by_cases hnil : setDiscard room (userRoomsOf st user) = []
      · rw [if_pos hnil] at hs
        simp at hs
      · rw [if_neg hnil, Option.some_inj] at hs
        subst hs
        exact hnil
    · rw [if_neg hc] at hs
      exact h.ne_u u' s hs

theorem WF_applyOps {st : Registry} (h : WF st) (ops : List RegOp) :
    WF (applyOps st ops) := by
  induction ops generalizing st with
  | nil => exact h
  | cons op rest ih =>
    cases op with
    | reg room user ws => exact ih (WF_connect h room user ws)
    | unreg room user => exact ih (WF_disconnect h room user)

theorem WF_runOps (ops : List RegOp) : WF (runOps ops) :=
  WF_applyOps WF_empty ops

/-- C1: after any sequence of register/unregister operations (so in particular
after each operation of any such sequence, every prefix being itself a
sequence), the three registry views agree: a room `r` lies in `user_rooms[u]`
iff the pair `(r, u)` has a registered connection, iff `u` lies in
`room_users[r]`; and when the pair is present the room's connection dict holds
exactly one entry for `u`. -/
theorem registry_views_consistent (ops : List RegOp) (r u : String) :
    (r ∈ userRoomsOf (runOps ops) u ↔ (lookupOf (runOps ops) r u).isSome) ∧
    (u ∈ roomUsersOf (runOps ops) r ↔ (lookupOf (runOps ops) r u).isSome) ∧
    (∀ w, lookupOf (runOps ops) r u = some w →
      (connsOf (runOps ops) r).countP (fun p => decide (p.1 = u)) = 1) := by
  have hwf := WF_runOps ops
  exact ⟨hwf.view_ur u r, hwf.view_cr r u,
    fun w hw => countP_key_eq_one (hwf.connsOf_nd r) hw⟩

/-- Witness for C1: a concrete two-operation run evaluated at a registered
pair, exercising the exactly-one-connection conclusion. -/
theorem registry_views_consistent_witness :
    lookupOf (runOps [RegOp.reg "r" "u" 0, RegOp.reg "s" "u" 1]) "r" "u" = some 0 ∧
    (connsOf (runOps [RegOp.reg "r" "u" 0, RegOp.reg "s" "u" 1]) "r").countP
      (fun p => decide (p.1 = "u")) = 1 :=
  ⟨by decide,
    (registry_views_consistent [RegOp.reg "r" "u" 0, RegOp.reg "s" "u" 1] "r" "u").2.2 0
      (by decide)⟩

/-- C8: after any sequence of register/unregister operations (in particular
after every disconnect), the registry holds no empty containers: no room key
maps to an empty connection dict or an empty user set, no user key maps to an
empty room set, and `get_online_users` never returns an empty list for a room
key that is present. -/
theorem registry_no_empty_containers (ops : List RegOp) :
    (∀ r m, lookupA (runOps ops).connections r = some m → m ≠ []) ∧
    (∀ r s, lookupA (runOps ops).room_users r = some s → s ≠ []) ∧
    (∀ u s, lookupA (runOps ops).user_rooms u = some s → s ≠ []) ∧
    (∀ r, (lookupA (runOps ops).room_users r).isSome →
      (runOps ops).get_online_users r ≠ []) := by
  have hwf := WF_runOps ops
  refine ⟨hwf.ne_c, hwf.ne_r, hwf.ne_u, ?_⟩
  intro r hr
  rcases hs : lookupA (runOps ops).room_users r with _ | s
  · rw [hs] at hr
    simp at hr
  · have hne := hwf.ne_r r s hs
    unfold Registry.get_online_users roomUsersOf
    rw [hs]
    simpa using hne

/-- Witness for C8: a run that registers two users in a room and unregisters
one of them, then checks the non-emptiness conclusions concretely. -/
theorem registry_no_empty_containers_witness :
    (runOps [RegOp.reg "r" "a" 0, RegOp.reg "r" "b" 1, RegOp.unreg "r" "b"]).get_online_users
      "r" ≠ [] :=
  (registry_no_empty_containers
    [RegOp.reg "r" "a" 0, RegOp.reg "r" "b" 1, RegOp.unreg "r" "b"]).2.2.2 "r" (by decide)

theorem broadcast_of_some {st : Registry} {r : String} {m : List (String × Nat)}
    (hm : lookupA st.connections r = some m) (net : Nat → SendOutcome)
    (excl : Option String) :
    st.broadcast r net excl =
      ((sweep net excl m).1,
        (sweep net excl m).2.foldl (fun s u => s.disconnect r u) st) := by
  unfold Registry.broadcast
  rw [hm]

theorem sweep_all_ok (net : Nat → SendOutcome) (l : List (String × Nat))
    (hok : ∀ p ∈ l, net p.2 = SendOutcome.ok) :
    sweep net none l = (l, []) := by
  induction l with
  | nil => rfl
  | cons p rest ih =>
    obtain ⟨u, w⟩ := p
    have hw : net w = SendOutcome.ok := hok (u, w) (List.mem_cons.mpr (Or.inl rfl))
    have hrest := ih (fun q hq => hok q (List.mem_cons.mpr (Or.inr hq)))
    simp only [sweep, exclMatch, Bool.false_eq_true, if_false, hw, hrest]

theorem sweep_one_failed (net : Nat → SendOutcome) (m : List (String × Nat))
    (u : String) (w : Nat) (hnd : keysND m) (hmem : (u, w) ∈ m)
    (hfail : net w = SendOutcome.failed)
    (hlive : ∀ p ∈ m, p.1 ≠ u → net p.2 = SendOutcome.ok) :
    sweep net none m = (m.filter (fun p => decide (p.1 ≠ u)), [u]) := by
  induction m with
  | nil => simp at hmem
  | cons p rest ih =>
    obtain ⟨a, b⟩ := p
    simp only [keysND, List.map_cons, List.nodup_cons] at hnd
    by_cases ha : a = u
    · subst ha
      have hwb : w = b := by
        rcases List.mem_cons.mp hmem with h | h
        · exact congrArg Prod.snd h
        · exact absurd (List.mem_map.mpr ⟨(a, w), h, rfl⟩) hnd.1
      subst hwb
      have hnou : ∀ p ∈ rest, p.1 ≠ a := by
        intro q hq hqa
        exact hnd.1 (List.mem_map.mpr ⟨q, hq, hqa⟩)
      have hrest := sweep_all_ok net rest
        (fun q hq => hlive q (List.mem_cons.mpr (Or.inr hq)) (hnou q hq))
      have hfilter : rest.filter (fun p => !decide (p.1 = a)) = rest :=
        List.filter_eq_self.mpr (fun q hq => by simpa using hnou q hq)
      simp [sweep, exclMatch, hfail, hrest, List.filter_cons, hfilter]
    · have hmem' : (u, w) ∈ rest := by
        rcases List.mem_cons.mp hmem with h | h
        · exact absurd (congrArg Prod.fst h).symm ha
        · exact h
      have hb : net b = SendOutcome.ok :=
        hlive (a, b) (List.mem_cons.mpr (Or.inl rfl)) ha
      have hrest := ih hnd.2 hmem'
        (fun q hq hqu => hlive q (List.mem_cons.mpr (Or.inr hq)) hqu)
      simp only [sweep, exclMatch, Bool.false_eq_true, if_false, hb, hrest,
        List.filter_cons, decide_eq_true_eq]
      simp [ha]

theorem mem_sweep_sent {net : Nat → SendOutcome} {excl : Option String} :
    ∀ {l : List (String × Nat)} {p : String × Nat}, p ∈ (sweep net excl l).1 → p ∈ l := by
  intro l
  induction l with
  | nil => intro p h; simp [sweep] at h
  | cons q rest ih =>
    intro p h
    obtain ⟨a, b⟩ := q
    simp only [sweep] at h
    by_cases he : exclMatch excl a
    · rw [if_pos he] at h
      exact List.mem_cons.mpr (Or.inr (ih h))
    · rw [if_neg (by simp [he])] at h
      rcases hw : net b with _ | _ | _ <;> rw [hw] at h
      · rcases List.mem_cons.mp h with h1 | h1
        · exact List.mem_cons.mpr (Or.inl h1)
        · exact List.mem_cons.mpr (Or.inr (ih h1))
      · exact List.mem_cons.mpr (Or.inr (ih h))
      · exact List.mem_cons.mpr (Or.inr (ih h))

theorem sweep_sent_complete {net : Nat → SendOutcome} {excl : Option String}
    {l : List (String × Nat)} {p : String × Nat} (hmem : p ∈ l)
    (hex : exclMatch excl p.1 = false) (hok : net p.2 = SendOutcome.ok) :
    p ∈ (sweep net excl l).1 := by
  induction l with
  | nil => simp at hmem
  | cons q rest ih =>
    obtain ⟨a, b⟩ := q
    simp only [sweep]
    rcases List.mem_cons.mp hmem with h | h
    · subst h
      rw [if_neg (by simp [hex]), hok]
      exact List.mem_cons.mpr (Or.inl rfl)
    · by_cases he : exclMatch excl a
      · rw [if_pos he]
        exact ih h
      · rw [if_neg (by simp [he])]
        rcases hw : net b with _ | _ | _
        · exact List.mem_cons.mpr (Or.inr (ih h))
        · exact ih h
        · exact ih h

theorem mem_of_lookupA {α : Type} {k : String} {v : α} :
    ∀ {l : List (String × α)}, lookupA l k = some v → (k, v) ∈ l := by
  intro l
  induction l with
  | nil => intro h; simp at h
  | cons p rest ih =>
    intro h
    obtain ⟨a, b⟩ := p
    simp only [lookupA_cons] at h
    by_cases hk : k = a
    · rw [if_pos hk] at h
      have hvb : v = b := by
        injection h with h2
        exact h2.symm
      subst hk
      subst hvb
      exact List.mem_cons.mpr (Or.inl rfl)
    · rw [if_neg hk] at h
      exact List.mem_cons.mpr (Or.inr (ih h))

/-- C2: broadcasting to a room in which exactly one registered connection's
send raises while every other registered connection's send succeeds delivers
the payload to all the other connections in snapshot order, returns normally
to its caller (send exceptions are absorbed into the `disconnected` list), and
only after the sweep over the snapshot evicts exactly the failing
`(room, user)` pair: that pair is gone from the registry and every other
registry entry is untouched. -/
theorem broadcast_one_dead (st : Registry) (r u : String) (w : Nat)
    (m : List (String × Nat)) (net : Nat → SendOutcome)
    (hm : lookupA st.connections r = some m)
    (hnd : keysND m)
    (hmem : (u, w) ∈ m)
    (hfail : net w = SendOutcome.failed)
    (hlive : ∀ p ∈ m, p.1 ≠ u → net p.2 = SendOutcome.ok) :
    (st.broadcast r net none).1 = m.filter (fun p => decide (p.1 ≠ u)) ∧
    (st.broadcast r net none).2 = st.disconnect r u ∧
    lookupOf (st.broadcast r net none).2 r u = none ∧
    (∀ r' u', ¬(r' = r ∧ u' = u) →
      lookupOf (st.broadcast r net none).2 r' u' = lookupOf st r' u') := by
  have hsw := sweep_one_failed net m u w hnd hmem hfail hlive
  have hb := broadcast_of_some hm net none
  rw [hb, hsw]
  refine ⟨rfl, rfl, ?_, ?_⟩
  · show lookupOf (st.disconnect r u) r u = none
    rw [lookupOf_disconnect]
    simp
  · intro r' u' hne
    show lookupOf (st.disconnect r u) r' u' = lookupOf st r' u'
    rw [lookupOf_disconnect, if_neg hne]

/-- Witness for C2: a concrete room with one live and one dead connection; the
dead user "b" is evicted, the live user "a" is delivered to. -/
theorem broadcast_one_dead_witness :
    ((runOps [RegOp.reg "r" "a" 0, RegOp.reg "r" "b" 1]).broadcast "r"
        (fun w => if w = 1 then SendOutcome.failed else SendOutcome.ok) none).2
      = (runOps [RegOp.reg "r" "a" 0, RegOp.reg "r" "b" 1]).disconnect "r" "b" ∧
    ((runOps [RegOp.reg "r" "a" 0, RegOp.reg "r" "b" 1]).broadcast "r"
        (fun w => if w = 1 then SendOutcome.failed else SendOutcome.ok) none).1
      = [("a", 0)] :=
  have h := broadcast_one_dead (runOps [RegOp.reg "r" "a" 0, RegOp.reg "r" "b" 1]) "r" "b" 1
    [("a", 0), ("b", 1)]
    (fun w => if w = 1 then SendOutcome.failed else SendOutcome.ok)
    (by decide) (by unfold keysND; decide) (by decide) (by decide) (by decide)
  ⟨h.2.1, by rw [h.1]; decide⟩

/-- C3: a second `connect` for the same `(room, user)` pair with a different
connection replaces the first: the pair has exactly one active entry, holding
the latest connection, and a subsequent broadcast to the room delivers to the
new connection (when its send succeeds) and never to the replaced one. -/
theorem register_twice_replaces (st : Registry) (r u : String) (w1 w2 : Nat)
    (hnd : keysND (connsOf st r)) (hne : w1 ≠ w2) (net : Nat → SendOutcome) :
    lookupOf ((st.connect r u w1).connect r u w2) r u = some w2 ∧
    (connsOf ((st.connect r u w1).connect r u w2) r).countP
      (fun p => decide (p.1 = u)) = 1 ∧
    (net w2 = SendOutcome.ok →
      (u, w2) ∈ (((st.connect r u w1).connect r u w2).broadcast r net none).1) ∧
    (u, w1) ∉ (((st.connect r u w1).connect r u w2).broadcast r net none).1 := by
  have hc1 : connsOf (st.connect r u w1) r = updA u w1 (connsOf st r) := by
    rw [connsOf_connect]
    simp
  have hc2 : connsOf ((st.connect r u w1).connect r u w2) r =
      updA u w2 (updA u w1 (connsOf st r)) := by
    rw [connsOf_connect]
    simp [hc1]
  have hnd2 : keysND (updA u w2 (updA u w1 (connsOf st r))) :=
    keysND_updA _ _ _ (keysND_updA _ _ _ hnd)
  have hlk : lookupOf ((st.connect r u w1).connect r u w2) r u = some w2 := by
    unfold lookupOf
    rw [hc2, lookupA_updA]
    simp
  have hm2 : lookupA ((st.connect r u w1).connect r u w2).connections r =
      some (updA u w2 (updA u w1 (connsOf st r))) := by
    rw [lookupA_connections_connect, if_pos rfl, hc1]
  refine ⟨hlk, ?_, ?_, ?_⟩
  · have hlk2 : lookupA (connsOf ((st.connect r u w1).connect r u w2) r) u = some w2 := hlk
    have hndc : keysND (connsOf ((st.connect r u w1).connect r u w2) r) := by
      rw [hc2]
      exact hnd2
    exact countP_key_eq_one hndc hlk2
  · intro hok
    rw [broadcast_of_some hm2 net none]
    refine sweep_sent_complete ?_ rfl hok
    refine mem_of_lookupA ?_
    rw [lookupA_updA]
    simp
  · intro hmem1
    rw [broadcast_of_some hm2 net none] at hmem1
    have hmem2 := mem_sweep_sent hmem1
    have hl := lookupA_of_mem hnd2 hmem2
    have hl2 : lookupA (updA u w2 (updA u w1 (connsOf st r))) u = some w2 := by
      rw [lookupA_updA]
      simp
    rw [hl2] at hl
    exact hne (Option.some_inj.mp hl).symm

/-- Witness for C3: re-registering user "u" in room "r" with connection 1
after connection 0; the broadcast delivers to connection 1 only. -/
theorem register_twice_replaces_witness :
    lookupOf ((Registry.empty.connect "r" "u" 0).connect "r" "u" 1) "r" "u" = some 1 ∧
    ("u", 1) ∈ (((Registry.empty.connect "r" "u" 0).connect "r" "u" 1).broadcast "r"
      (fun _ => SendOutcome.ok) none).1 ∧
    ("u", 0) ∉ (((Registry.empty.connect "r" "u" 0).connect "r" "u" 1).broadcast "r"
      (fun _ => SendOutcome.ok) none).1 :=
  have h := register_twice_replaces Registry.empty "r" "u" 0 1 (by unfold keysND; decide)
    (by decide) (fun _ => SendOutcome.ok)
  ⟨h.1, h.2.2.1 rfl, h.2.2.2⟩

/-- C5 fails as stated: the generic `/ws` endpoint performs no role check at
all (`websocket_main` never calls `get_chat_room_member`, and neither it nor
`send_message` consults a role), so a message event from a viewer-role session
on that endpoint is persisted to the store and broadcast to the room, with no
error reply — not rejected with zero side effects as the claim requires of
both endpoints. -/
theorem viewer_message_generic_counterexample :
    mainHandleMessage isUUIDcanonical "viewer-user"
      (some "00000000-0000-0000-0000-000000000000") (some "hi") 0 =
      some [Action.storeAppend "00000000-0000-0000-0000-000000000000" "viewer-user" "hi"
              none 0,
            Action.broadcastRoom "00000000-0000-0000-0000-000000000000"
              (OutEvt.messageEvt 0 "00000000-0000-0000-0000-000000000000" "viewer-user"
                "hi" none)] := by
  rfl

/-- C5 amended: on the per-room endpoint, a message event from a viewer
session (`can_send = false`) always yields exactly one `error` reply to that
session and nothing else — no store append, no broadcast, no registry
interaction; the generic endpoint has no role check, and a message event with
truthy room and content from any session, viewer included, is persisted and
broadcast with no error reply. -/
theorem viewer_message_rejected (isU : String → Bool) (room user : String)
    (ev : InMsg) (nextId : Nat) (dbErr : String) :
    chatHandleMessage isU false room user ev nextId dbErr =
      [Action.sendToSender (OutEvt.errorEvt "VIEWERs cannot send messages")] ∧
    (∀ (u r c : String), pyTruthy r = true → pyTruthy c = true → isU r = true →
      mainHandleMessage isU u (some r) (some c) nextId =
        some [Action.storeAppend r u c none nextId,
              Action.broadcastRoom r (OutEvt.messageEvt nextId r u c none)]) := by
  constructor
  · rfl
  · intro u r c hr hc hu
    unfold mainHandleMessage
    simp [optTruthy, hr, hc, hu]

/-- Witness for the amended C5, at a concrete viewer message on each
endpoint. -/
theorem viewer_message_rejected_witness :
    chatHandleMessage isUUIDcanonical false "00000000-0000-0000-0000-000000000000" "v"
      ⟨"hello", none, none⟩ 0 "" =
      [Action.sendToSender (OutEvt.errorEvt "VIEWERs cannot send messages")] ∧
    mainHandleMessage isUUIDcanonical "v"
      (some "00000000-0000-0000-0000-000000000000") (some "hello") 0 =
      some [Action.storeAppend "00000000-0000-0000-0000-000000000000" "v" "hello" none 0,
            Action.broadcastRoom "00000000-0000-0000-0000-000000000000"
              (OutEvt.messageEvt 0 "00000000-0000-0000-0000-000000000000" "v" "hello"
                none)] :=
  have h := viewer_message_rejected isUUIDcanonical
    "00000000-0000-0000-0000-000000000000" "v" ⟨"hello", none, none⟩ 0 ""
  ⟨h.1, h.2 "v" "00000000-0000-0000-0000-000000000000" "hello"
    (by decide) (by decide) (by decide)⟩

/-- C6 fails as stated: on the generic `/ws` endpoint a whitespace-only
content string is truthy, so `if room_id and content:` passes and
`send_message` calls `create_chat_message` — the store append is invoked and
the message broadcast, with no error reply, contradicting the claim for
"every endpoint accepting message events". -/
theorem whitespace_message_persisted_counterexample :
    pyStrip " " = "" ∧
    mainHandleMessage isUUIDcanonical "u"
      (some "00000000-0000-0000-0000-000000000000") (some " ") 0 =
      some [Action.storeAppend "00000000-0000-0000-0000-000000000000" "u" " " none 0,
            Action.broadcastRoom "00000000-0000-0000-0000-000000000000"
              (OutEvt.messageEvt 0 "00000000-0000-0000-0000-000000000000" "u" " "
                none)] := by
  constructor
  · rfl
  · rfl

/-- C6 amended: on the per-room endpoint an empty or whitespace-only content
(`content.strip()` empty) always yields exactly one `error` reply and never
reaches the store — zero appends, zero broadcasts; on the generic endpoint a
missing or empty content string is silently ignored (no error reply and no
persistence either), but a whitespace-only content string is truthy and is
persisted unstripped and broadcast. -/
theorem blank_message_rejected (isU : String → Bool) (room user : String)
    (ev : InMsg) (nextId : Nat) (dbErr : String) :
    (pyStrip ev.content = "" →
      chatHandleMessage isU true room user ev nextId dbErr =
        [Action.sendToSender (OutEvt.errorEvt "Message content cannot be empty")]) ∧
    (∀ (u r : String), mainHandleMessage isU u (some r) (some "") nextId = some []) ∧
    (∀ (u : String), mainHandleMessage isU u (some room) none nextId = some []) ∧
    (∀ (u r c : String), pyTruthy r = true → isU r = true → pyTruthy c = true →
      pyStrip c = "" →
      mainHandleMessage isU u (some r) (some c) nextId =
        some [Action.storeAppend r u c none nextId,
              Action.broadcastRoom r (OutEvt.messageEvt nextId r u c none)]) := by
  refine ⟨?_, ?_, ?_, ?_⟩
  · intro h
    unfold chatHandleMessage
    simp [h]
  · intro u r
    unfold mainHandleMessage
    simp [optTruthy, pyTruthy]
  · intro u
    unfold mainHandleMessage
    simp [optTruthy]
  · intro u r c hr hu hc _
    unfold mainHandleMessage
    simp [optTruthy, hr, hc, hu]

/-- Witness for the amended C6: an empty message on the per-room endpoint and
a whitespace-only message on the generic endpoint. -/
theorem blank_message_rejected_witness :
    chatHandleMessage isUUIDcanonical true "00000000-0000-0000-0000-000000000000" "u"
      ⟨"   ", some "c1", none⟩ 0 "" =
      [Action.sendToSender (OutEvt.errorEvt "Message content cannot be empty")] ∧
    mainHandleMessage isUUIDcanonical "u"
      (some "00000000-0000-0000-0000-000000000000") (some "  ") 0 =
      some [Action.storeAppend "00000000-0000-0000-0000-000000000000" "u" "  " none 0,
            Action.broadcastRoom "00000000-0000-0000-0000-000000000000"
              (OutEvt.messageEvt 0 "00000000-0000-0000-0000-000000000000" "u" "  "
                none)] :=
  have h := blank_message_rejected isUUIDcanonical
    "00000000-0000-0000-0000-000000000000" "u" ⟨"   ", some "c1", none⟩ 0 ""
  ⟨h.1 (by decide), h.2.2.2 "u" "00000000-0000-0000-0000-000000000000" "  "
    (by decide) (by decide) (by decide) (by decide)⟩

/-- C7: for every successfully accepted message on the per-room endpoint —
one that passes the role and content checks and whose store append succeeds —
the sender's own delivered event sequence is exactly the `ack` (echoing the
client-supplied correlation id and carrying the server-assigned message id)
followed by the broadcast copy of that same message: the ack at index 0
strictly precedes the broadcast copy at index 1, so it precedes or coincides
with it. -/
theorem ack_precedes_broadcast (isU : String → Bool) (room user : String)
    (ev : InMsg) (nextId : Nat) (dbErr : String) (h : pyStrip ev.content ≠ "")
    (hok : storeBindFails (replyOf isU ev.reply_to_id) = false) :
    deliveredToSender (chatHandleMessage isU true room user ev nextId dbErr) =
      [OutEvt.ackEvt ev.client_msg_id nextId,
       OutEvt.messageEvt nextId room user (pyStrip ev.content) (replyOf isU ev.reply_to_id)] := by
  unfold chatHandleMessage
  simp [h, hok, deliveredToSender]

/-- Witness for C7 at a concrete message with correlation id "c1". -/
theorem ack_precedes_broadcast_witness :
    deliveredToSender (chatHandleMessage isUUIDcanonical true
      "00000000-0000-0000-0000-000000000000" "u" ⟨"hi", some "c1", none⟩ 0 "") =
      [OutEvt.ackEvt (some "c1") 0,
       OutEvt.messageEvt 0 "00000000-0000-0000-0000-000000000000" "u" "hi" none] :=
  (ack_precedes_broadcast isUUIDcanonical "00000000-0000-0000-0000-000000000000" "u"
    ⟨"hi", some "c1", none⟩ 0 "" (by decide) (by decide)).trans (by decide)

/-- C10 fails as stated for one input: an empty-string `reply_to_id` is not a
parseable UUID, yet it is NOT silently coerced to null — the `if reply_to_id:`
truthiness guard skips the coercion, `create_chat_message` raises binding `""`
to the UUID column `reply_to_id` (`models.py` line 250), and the loop's
`except Exception` (`websocket.py` line 485) replies with an error event:
nothing is persisted, acked or broadcast, and an error event IS emitted. -/
theorem reply_to_empty_counterexample :
    isUUIDcanonical "" = false ∧
    chatHandleMessage isUUIDcanonical true "00000000-0000-0000-0000-000000000000" "u"
      ⟨"hi", none, some ""⟩ 0 "e" =
      [Action.sendToSender (OutEvt.errorEvt "e")] := by
  constructor
  · rfl
  · rfl

/-- C10 amended: on the per-room endpoint a message carrying a NON-EMPTY
`reply_to_id` that is not a parseable UUID is not rejected: the reference is
silently coerced to null and the message is persisted, acked and broadcast as
a non-reply, with no error event.  An empty-string `reply_to_id` — also not
parseable — bypasses the coercion (Python truthiness), the store call raises
binding it to the UUID column, and the handler replies with a single error
event carrying the exception text: nothing is persisted, acked or
broadcast. -/
theorem malformed_reply_to_coerced (isU : String → Bool) (room user : String)
    (content : String) (cmi : Option String) (rts : String) (nextId : Nat)
    (dbErr : String)
    (hc : pyStrip content ≠ "") (hr : rts ≠ "") (hparse : isU rts = false) :
    chatHandleMessage isU true room user ⟨content, cmi, some rts⟩ nextId dbErr =
      [Action.storeAppend room user (pyStrip content) none nextId,
       Action.sendToSender (OutEvt.ackEvt cmi nextId),
       Action.broadcastRoom room
         (OutEvt.messageEvt nextId room user (pyStrip content) none)] ∧
    chatHandleMessage isU true room user ⟨content, cmi, some ""⟩ nextId dbErr =
      [Action.sendToSender (OutEvt.errorEvt dbErr)] := by
  constructor
  · unfold chatHandleMessage replyOf
    simp [hc, hparse, pyTruthy, hr, storeBindFails]
  · unfold chatHandleMessage replyOf
    simp [hc, pyTruthy, storeBindFails]

/-- Witness for the amended C10: the malformed non-empty reference
"not-a-uuid" is coerced to null and the message goes through; the empty-string
reference yields a single error event. -/
theorem malformed_reply_to_coerced_witness :
    chatHandleMessage isUUIDcanonical true "00000000-0000-0000-0000-000000000000" "u"
      ⟨"hi", some "c1", some "not-a-uuid"⟩ 0 "e" =
      [Action.storeAppend "00000000-0000-0000-0000-000000000000" "u" "hi" none 0,
       Action.sendToSender (OutEvt.ackEvt (some "c1") 0),
       Action.broadcastRoom "00000000-0000-0000-0000-000000000000"
         (OutEvt.messageEvt 0 "00000000-0000-0000-0000-000000000000" "u" "hi" none)] ∧
    chatHandleMessage isUUIDcanonical true "00000000-0000-0000-0000-000000000000" "u"
      ⟨"hi", some "c1", some ""⟩ 0 "e" =
      [Action.sendToSender (OutEvt.errorEvt "e")] :=
  have h := malformed_reply_to_coerced isUUIDcanonical
    "00000000-0000-0000-0000-000000000000" "u" "hi" (some "c1") "not-a-uuid" 0 "e"
    (by decide) (by decide) (by decide)
  ⟨h.1.trans (by decide), h.2.trans (by decide)⟩

theorem lookupActive_isActive {u? fb : Option ChatUser} {u : ChatUser}
    (hfb : ∀ v, fb = some v → v.is_active = true)
    (h : lookupActive u? fb = some u) : u.is_active = true := by
  rcases u? with _ | v
  · simp only [lookupActive] at h
    exact hfb u h
  · simp only [lookupActive] at h
    by_cases ha : v.is_active
    · rw [if_pos ha] at h
      rw [← Option.some_inj.mp h]
      exact ha
    · rw [if_neg ha] at h
      exact hfb u h

theorem lookupActive_none {u? fb : Option ChatUser}
    (hin : ∀ v, u? = some v → v.is_active = false) (hfb : fb = none) :
    lookupActive u? fb = none := by
  rcases hv : u? with _ | v
  · simp only [lookupActive]
    exact hfb
  · simp only [lookupActive]
    rw [hin v hv]
    simp [hfb]

theorem getUser_isActive (isU : String → Bool) (db : UserDB)
    (payload? : Option (Option String)) (u : ChatUser)
    (h : getCurrentChatUserFromToken isU db payload? = some u) :
    u.is_active = true := by
  rcases payload? with _ | sub?
  · simp [getCurrentChatUserFromToken] at h
  · rcases sub? with _ | sub
    · simp [getCurrentChatUserFromToken] at h
    · simp only [getCurrentChatUserFromToken] at h
      by_cases ht : pyTruthy sub
      · rw [if_neg (by simp [ht])] at h
        exact lookupActive_isActive
          (fun v hv => lookupActive_isActive
            (fun w hw => lookupActive_isActive (fun x hx => by simp at hx) hw) hv) h
      · rw [if_pos (by simp [ht])] at h
        simp at h

/-- C9: an inactive user can never pass token validation or reach the joined
state.  First, whenever `get_current_chat_user_from_token` returns a user,
that user is active.  Second, when every record the token subject resolves to
(by UUID, by username, by slug) is inactive, validation returns no user.
Third, whenever the per-room endpoint reaches the joined state, the joined
user is active — in every failing case the socket is closed before accept. -/
theorem inactive_user_never_joins :
    (∀ (isU : String → Bool) (db : UserDB) (payload? : Option (Option String))
      (u : ChatUser), getCurrentChatUserFromToken isU db payload? = some u →
        u.is_active = true) ∧
    (∀ (isU : String → Bool) (db : UserDB) (sub : String),
      (∀ v, db.byId sub = some v → v.is_active = false) →
      (∀ v, db.byUsername sub = some v → v.is_active = false) →
      (∀ v, db.bySlug sub = some v → v.is_active = false) →
      getCurrentChatUserFromToken isU db (some (some sub)) = none) ∧
    (∀ (isU : String → Bool) (db : UserDB) (roomExists : Bool)
      (memb : String → Option RoomRole) (roomId : String)
      (payload? : Option (Option String)) (u : ChatUser) (c : Bool),
      chatAccept isU db roomExists memb roomId payload? = AcceptOutcome.joined u c →
        u.is_active = true) := by
  refine ⟨getUser_isActive, ?_, ?_⟩
  · intro isU db sub hid husr hslug
    simp only [getCurrentChatUserFromToken]
    by_cases ht : pyTruthy sub
    · rw [if_neg (by simp [ht])]
      refine lookupActive_none ?_ (lookupActive_none husr (lookupActive_none hslug rfl))
      intro v hv
      by_cases hu : isU sub
      · rw [if_pos hu] at hv
        exact hid v hv
      · rw [if_neg hu] at hv
        simp at hv
    · rw [if_pos (by simp [ht])]
  · intro isU db roomExists memb roomId payload? u c h
    unfold chatAccept at h
    by_cases hroom : isU roomId
    · rw [if_neg (by simp [hroom])] at h
      by_cases hex : roomExists
      · rw [if_neg (by simp [hex])] at h
        rcases hv : getCurrentChatUserFromToken isU db payload? with _ | user <;>
          rw [hv] at h
        · simp at h
        · have h2 : (match memb user.id with
              | none => AcceptOutcome.closed 4003
              | some role =>
                AcceptOutcome.joined user (decide (role ≠ RoomRole.VIEWER))) =
              AcceptOutcome.joined u c := h
          rcases hm : memb user.id with _ | role <;> rw [hm] at h2
          · simp at h2
          · simp at h2
            rcases h2 with ⟨rfl, -⟩
            exact getUser_isActive isU db payload? _ hv
      · rw [if_pos (by simp [hex])] at h
        simp at h
    · rw [if_pos (by simp [hroom])] at h
      simp at h

/-- Witness for C9: a concrete database in which the subject resolves by UUID
to an inactive user (validation returns no user), and a second database with
an active user who joins (the joined user is active). -/
theorem inactive_user_never_joins_witness :
    getCurrentChatUserFromToken isUUIDcanonical
      ⟨fun s => if s = "11111111-1111-1111-1111-111111111111" then
          some ⟨"11111111-1111-1111-1111-111111111111", false⟩ else none,
        fun _ => none, fun _ => none⟩
      (some (some "11111111-1111-1111-1111-111111111111")) = none ∧
    ChatUser.is_active ⟨"22222222-2222-2222-2222-222222222222", true⟩ = true :=
  have hdb := inactive_user_never_joins.2.1 isUUIDcanonical
    ⟨fun s => if s = "11111111-1111-1111-1111-111111111111" then
        some ⟨"11111111-1111-1111-1111-111111111111", false⟩ else none,
      fun _ => none, fun _ => none⟩
    "11111111-1111-1111-1111-111111111111"
    (by
      intro v hv
      simp only [if_pos rfl] at hv
      rw [← Option.some_inj.mp hv])
    (by intro v hv; simp at hv)
    (by intro v hv; simp at hv)
  have hjoin := inactive_user_never_joins.2.2 isUUIDcanonical
    ⟨fun s => if s = "22222222-2222-2222-2222-222222222222" then
        some ⟨"22222222-2222-2222-2222-222222222222", true⟩ else none,
      fun _ => none, fun _ => none⟩
    true (fun _ => some RoomRole.MEMBER) "00000000-0000-0000-0000-000000000000"
    (some (some "22222222-2222-2222-2222-222222222222"))
    ⟨"22222222-2222-2222-2222-222222222222", true⟩ true (by decide)
  ⟨hdb, hjoin⟩

theorem foldl_disconnect_lookupOf (user : String) :
    ∀ (L : List String) (st : Registry) (r u' : String),
      lookupOf (L.foldl (fun s x => s.disconnect x user) st) r u' =
        if u' = user ∧ r ∈ L then none else lookupOf st r u' := by
  intro L
  induction L with
  | nil =>
    intro st r u'
    simp
  | cons x rest ih =>
    intro st r u'
    rw [List.foldl_cons, ih, lookupOf_disconnect]
    by_cases hu : u' = user
    · by_cases hr : r ∈ rest
      · simp [hu, hr]
      · by_cases hx : r = x
        · simp [hu, hr, hx]
        · simp [hu, hr, hx]
    · simp [hu]

theorem WF_foldl_disconnect (user : String) :
    ∀ (L : List String) (st : Registry), WF st →
      WF (L.foldl (fun s x => s.disconnect x user) st) := by
  intro L
  induction L with
  | nil => intro st h; exact h
  | cons x rest ih =>
    intro st h
    rw [List.foldl_cons]
    exact ih _ (WF_disconnect h x user)

/-- C4 fails as stated: a session on the generic `/ws` endpoint that joined
room "r" and then exits runs its `finally` cleanup, which unregisters the
user from every room — but broadcasts no `presence: left` event at all (the
cleanup loop only calls `leave_room`), so no room receives the presence
event the claim requires on every exit path. -/
theorem teardown_no_presence_counterexample :
    userRoomsOf (Registry.empty.connect "r" "u" 0) "u" = ["r"] ∧
    (mainTeardown (Registry.empty.connect "r" "u" 0) "u").2 = [] ∧
    lookupA (mainTeardown (Registry.empty.connect "r" "u" 0) "u").1.user_rooms "u" =
      none := by
  refine ⟨?_, ?_, ?_⟩ <;> decide

/-- C4 amended: teardown always runs on every exit path of a joined session
(the cleanup sits in a `finally` block on both endpoints), with these
effects.  Per-room endpoint: the session's `(room, user)` pair is
unregistered — that pair is gone and the leaver is absent from the room's
online users — and exactly one `presence: left` event carrying the refreshed
online-user list is broadcast to that room.  Generic endpoint: the user is
unregistered from every room they were registered in (no room missed, no
other user's entry touched), but no presence event is broadcast. -/
theorem session_teardown (st : Registry) (room user : String) (hWF : WF st) :
    ((chatTeardown st room user).1 = st.disconnect room user ∧
     lookupOf (chatTeardown st room user).1 room user = none ∧
     user ∉ (chatTeardown st room user).1.get_online_users room ∧
     (chatTeardown st room user).2 =
       [Action.broadcastRoom room (OutEvt.presenceEvt "left" user
         ((chatTeardown st room user).1.get_online_users room))]) ∧
    ((mainTeardown st user).2 = [] ∧
     (∀ r, lookupOf (mainTeardown st user).1 r user = none) ∧
     lookupA (mainTeardown st user).1.user_rooms user = none ∧
     (∀ r u', u' ≠ user →
       lookupOf (mainTeardown st user).1 r u' = lookupOf st r u')) := by
  have hview := fun u' => hWF.view_cr room u'
  have hfoldnone : ∀ r,
      lookupOf ((userRoomsOf st user).foldl (fun s x => s.disconnect x user) st) r user =
        none := by
    intro r
    rw [foldl_disconnect_lookupOf]
    by_cases hr : r ∈ userRoomsOf st user
    · simp [hr]
    · rw [if_neg (by simp [hr])]
      rw [← Option.not_isSome_iff_eq_none]
      intro hs
      exact hr ((hWF.view_ur user r).mpr hs)
  refine ⟨⟨rfl, ?_, ?_, rfl⟩, ⟨rfl, ?_, ?_, ?_⟩⟩
  · show lookupOf (st.disconnect room user) room user = none
    rw [lookupOf_disconnect]
    simp
  · show user ∉ (st.disconnect room user).get_online_users room
    unfold Registry.get_online_users
    rw [roomUsersOf_disconnect st room user room hview, if_pos rfl, mem_setDiscard]
    simp
  · intro r
    exact hfoldnone r
  · have hWF' : WF (mainTeardown st user).1 :=
      WF_foldl_disconnect user (userRoomsOf st user) st hWF
    rcases hs : lookupA (mainTeardown st user).1.user_rooms user with _ | srooms
    · rfl
    · exfalso
      have hne := hWF'.ne_u user srooms hs
      obtain ⟨r0, hr0⟩ := List.exists_mem_of_ne_nil _ hne
      have hmem : r0 ∈ userRoomsOf (mainTeardown st user).1 user := by
        unfold userRoomsOf
        rw [hs]
        exact hr0
      have hsome := (hWF'.view_ur user r0).mp hmem
      have hnone : lookupOf (mainTeardown st user).1 r0 user = none := hfoldnone r0
      rw [hnone] at hsome
      simp at hsome
  · intro r u' hu
    show lookupOf ((userRoomsOf st user).foldl (fun s x => s.disconnect x user) st) r u' =
      lookupOf st r u'
    rw [foldl_disconnect_lookupOf]
    simp [hu]

/-- Witness for the amended C4, on a reachable registry holding users "u" and
"v" in room "r". -/
theorem session_teardown_witness :
    lookupOf (chatTeardown (runOps [RegOp.reg "r" "u" 0, RegOp.reg "r" "v" 1])
      "r" "u").1 "r" "u" = none ∧
    (chatTeardown (runOps [RegOp.reg "r" "u" 0, RegOp.reg "r" "v" 1]) "r" "u").2 =
      [Action.broadcastRoom "r" (OutEvt.presenceEvt "left" "u"
        ((chatTeardown (runOps [RegOp.reg "r" "u" 0, RegOp.reg "r" "v" 1])
          "r" "u").1.get_online_users "r"))] ∧
    (mainTeardown (runOps [RegOp.reg "r" "u" 0, RegOp.reg "r" "v" 1]) "u").2 = [] ∧
    lookupA (mainTeardown (runOps [RegOp.reg "r" "u" 0, RegOp.reg "r" "v" 1])
      "u").1.user_rooms "u" = none :=
  have h := session_teardown (runOps [RegOp.reg "r" "u" 0, RegOp.reg "r" "v" 1]) "r" "u"
    (WF_runOps [RegOp.reg "r" "u" 0, RegOp.reg "r" "v" 1])
  ⟨h.1.2.1, h.1.2.2.2, h.2.1, h.2.2.2.1⟩

end Sparkbot
